import Mathlib

/-!
Shallow embedding of the chanserv.py asynchronous action scheduler
(an xchat helper script).  Every definition below models the Python
function or method of the same (or clearly indicated) name from
src/chanserv.py.  Mutation of the global queue while iterating over it
is modelled with the exact index semantics of a Python list iterator:
the iterator counter always advances by one, while an in-place removal
shifts the later elements one slot down, so the element directly after
a removed one is skipped.  Loops are written with an explicit fuel
argument (initialised to the length of the list being traversed, which
never grows during a traversal) so that every definition is structural
and kernel-reducible.  time.time() values are modelled as integers
passed in as a `now` parameter.
-/

namespace Chanserv

/-- Python str() of an optional string field: None prints as "None". -/
def optS (o : Option String) : String := o.getD "None"

/-- Python truthiness of an optional string: None and "" are falsy. -/
def truthy (o : Option String) : Bool :=
  match o with
  | none => false
  | some s => !(s == "")

/-- Models Python str.lower for the ASCII alphabet (character-wise). -/
def pyLower (s : String) : String := String.mk (s.toList.map Char.toLower)

/-- Python `c in s` for a single character c. -/
def charIn (c : Char) (s : String) : Bool := s.toList.contains c

/-- Does the second list start with the first one? -/
def leadsList : List Char → List Char → Bool
  | [], _ => true
  | _ :: _, [] => false
  | a :: as2, b :: bs => a == b && leadsList as2 bs

/-- Models Python str.startswith. -/
def strStarts (s pre : String) : Bool := leadsList pre.toList s.toList

/-- Does the pattern occur as a contiguous run inside the text? -/
def hasSub : List Char → List Char → Bool
  | pat, [] => leadsList pat []
  | pat, _h :: t => leadsList pat (_h :: t) || hasSub pat t

/-- Python `pat in hay` substring test. -/
def strContainsSub (hay pat : String) : Bool := hasSub pat.toList hay.toList

/-- Helper for the star case of the wildcard matcher: does f accept some
suffix of the text (including the text itself and the empty suffix)? -/
def sufAny (f : List Char → Bool) : List Char → Bool
  | [] => f []
  | c :: cs => f (c :: cs) || sufAny f cs

/-- Models ban2re(pat).match(s): chanserv.py compiles a mask into the
anchored regex obtained by escaping everything and replacing * by .*
and ? by . , so * matches any run of characters, ? exactly one
character, and every other character only itself. -/
def wcMatch : List Char → List Char → Bool
  | [], cs => cs.isEmpty
  | p :: ps, cs =>
    if p = '*' then sufAny (wcMatch ps) cs
    else
      match cs with
      | [] => false
      | c :: cs2 => (p = '?' || p == c) && wcMatch ps cs2

/-- String-level wrapper of `wcMatch` (the model of ban2re + match). -/
def wcMatchS (pat s : String) : Bool := wcMatch pat.toList s.toList

/-- Characters allowed by the _valid_nickname character class. -/
def nickChar (c : Char) : Bool :=
  c.isAlphanum || "-[]\x7b\x7d\x60|_^\\".toList.contains c

/-- Characters allowed in the nick part of the _valid_mask regex. -/
def maskChar (c : Char) : Bool := nickChar c || c = '*' || c = '?'

/-- Models valid_nickname: ^[-a-zA-Z0-9\[\]\x7b\x7d`|_^\\]\x7b0,30\x7d$. -/
def valid_nickname (s : String) : Bool :=
  s.toList.length ≤ 30 && s.toList.all nickChar

/-- First alternative of _valid_mask: up to 30 mask characters, then a
bang, then anything containing an at-sign.  Since the character class
excludes the bang, the class run necessarily stops at the first bang. -/
def maskFirstAlt (cs : List Char) : Bool :=
  let pre := cs.takeWhile (fun c => !(c == '!'))
  match cs.dropWhile (fun c => !(c == '!')) with
  | [] => false
  | _ :: after => pre.length ≤ 30 && pre.all maskChar && after.contains '@'

/-- Models valid_mask: a nick!ident@host shaped string, or an extended
$a: / $r: mask. -/
def valid_mask (s : String) : Bool :=
  strStarts s "$a:" || strStarts s "$r:" || maskFirstAlt s.toList

/-- Position of the first occurrence of the two-character run dollar-hash,
as used by ban.find in Action.match; none when absent (Python -1). -/
def findDH : List Char → Option Nat
  | [] => none
  | [_] => none
  | a :: b :: rest =>
    if a = '$' ∧ b = '#' then some 0
    else (findDH (b :: rest)).map (fun n => n + 1)

/-- Models ban[:ban.find('$#')] as executed when '#' is in ban: slice up
to the first dollar-hash, or (Python find returning -1) drop the final
character. -/
def stripAtDH (s : String) : String :=
  match findDH s.toList with
  | some n => String.mk (s.toList.take n)
  | none => String.mk (s.toList.take (s.toList.length - 1))

/-- The user record stored in the whois cache (class User). -/
structure UserEnt where
  nick : String
  ident : String
  host : String
  name : String
  account : Option String := none
  time : Int
deriving DecidableEq

/-- The Action object: one queued intent.  Defaults are those of
Action.__init__; am_op is only read after Action.schedule has set it,
target_mask and target_name_bannable are attributes Python creates on
first assignment (modelled as options starting at none). -/
structure Action where
  channel : String
  me : String
  stamp : Int
  deop : Bool := true
  needs_op : Bool := true
  do_ban : Bool := false
  do_unban : Bool := false
  do_bans : Bool := false
  banmode : String := "b"
  reason : String := ""
  bans : String := ""
  actions : List String := []
  resolved : Bool := true
  target : Option String := some ""
  forward_to : String := ""
  timer : Int := 0
  am_op : Bool := false
  target_nick : Option String := none
  target_mask : Option String := none
  target_ident : Option String := none
  target_host : Option String := none
  target_name : Option String := none
  target_name_bannable : Option String := none
  target_account : Option String := none
deriving DecidableEq

/-- The module-level mutable state of chanserv.py, together with the
observable outputs: protocol commands issued through context.command /
xchat.command, and user-visible lines emitted through xchat.emit_print.
`scheduled` records reversal actions handed to xchat.hook_timer, and
`crashed` models a raised Python exception (never reached on the
inputs used by the theorems below). -/
structure St where
  pending : List Action := []
  users : List (String × UserEnt) := []
  bansMap : List (String × List String) := []
  quietsMap : List (String × List String) := []
  collecting_bans : List String := []
  cmds : List String := []
  reports : List String := []
  scheduled : List Action := []
  crashed : Bool := false
deriving DecidableEq

/-- Append a protocol command to the issued-command log. -/
def issue (st : St) (c : String) : St := { st with cmds := st.cmds ++ [c] }

/-- Append a user-visible line to the report log. -/
def report (st : St) (r : String) : St := { st with reports := st.reports ++ [r] }

/-- Dictionary lookup on an association list (Python dict read). -/
def alGet {α : Type} (m : List (String × α)) (k : String) : Option α :=
  (m.find? (fun e => e.1 == k)).map (fun e => e.2)

/-- Dictionary assignment (Python dict write: replace in place or append). -/
def alSet {α : Type} (m : List (String × α)) (k : String) (v : α) : List (String × α) :=
  if m.any (fun e => e.1 == k) then m.map (fun e => if e.1 == k then (k, v) else e)
  else m ++ [(k, v)]

/-- Dictionary deletion (Python del). -/
def alDel {α : Type} (m : List (String × α)) (k : String) : List (String × α) :=
  m.filter (fun e => !(e.1 == k))

/-- Split a character list at every separator character, keeping empty
groups, modelling re.split with a character class. -/
def splitSep (p : Char → Bool) : List Char → List (List Char)
  | [] => [[]]
  | c :: rest =>
    match splitSep p rest with
    | [] => [[]]
    | g :: gs => if p c then [] :: g :: gs else (c :: g) :: gs

/-- The literal host ban template added by the cs dispatcher for the h
dimension. -/
def hostTemplate : String :=
  "mode %(channel)s +%(banmode)s *!*@%(target_host)s%(forward_to)s"

/-- The ident/gateway wildcard template substituted by resolve_nick for
gateway-classified hosts. -/
def gatewayTemplate : String :=
  "mode %(channel)s +%(banmode)s *!%(target_ident)s@gateway/*%(forward_to)s"

/-- re.sub of [^a-zA-Z0-9] by ? over a display name (bannable name). -/
def bannableName (s : String) : String :=
  String.mk (s.toList.map (fun c => if c.isAlphanum then c else '?'))

/-- The value dictionary used by the %(key)s substitution in Action.run
(kwargs = self.__dict__); optional fields print as Python None does. -/
def kwLookup (a : Action) (k : String) : String :=
  if k == "channel" then a.channel
  else if k == "me" then a.me
  else if k == "banmode" then a.banmode
  else if k == "reason" then a.reason
  else if k == "bans" then a.bans
  else if k == "forward_to" then a.forward_to
  else if k == "target" then optS a.target
  else if k == "target_nick" then optS a.target_nick
  else if k == "target_mask" then optS a.target_mask
  else if k == "target_ident" then optS a.target_ident
  else if k == "target_host" then optS a.target_host
  else if k == "target_name" then optS a.target_name
  else if k == "target_name_bannable" then optS a.target_name_bannable
  else if k == "target_account" then optS a.target_account
  else "KeyError"

/-- One left-to-right pass of Python %-formatting restricted to the
%(key)s directives actually present in the templates of chanserv.py;
text without directives passes through unchanged.  The fuel argument is
initialised with the length of the text. -/
def substAux (kw : String → String) : Nat → List Char → List Char
  | 0, cs => cs
  | _ + 1, [] => []
  | f + 1, c :: rest =>
    if c = '%' then
      match rest with
      | '(' :: r2 =>
        (match r2.dropWhile (fun x => !(x == ')')) with
         | ')' :: 's' :: r4 =>
           (kw (String.mk (r2.takeWhile (fun x => !(x == ')'))))).toList ++ substAux kw f r4
         | _ => c :: substAux kw f rest)
      | _ => c :: substAux kw f rest
    else c :: substAux kw f rest

/-- Models `template % kwargs` for one action template. -/
def pySubst (a : Action) (t : String) : String :=
  String.mk (substAux (kwLookup a) t.toList.length t.toList)

/-- Models Action.match: account and realname bans are matched against
the corresponding single field when that field is truthy, otherwise the
composite nick!ident@host string is matched, after slicing the ban at
the first dollar-hash whenever it contains a hash character. -/
def matchBan (a : Action) (ban : String) : Bool :=
  if strStarts ban "$r:" && truthy a.target_name then
    wcMatchS (ban.drop 3) (optS a.target_name)
  else if strStarts ban "$a:" && truthy a.target_account then
    wcMatchS (ban.drop 3) (optS a.target_account)
  else
    let ban2 := if ban.toList.contains '#' then stripAtDH ban else ban
    wcMatchS ban2 (optS a.target_nick ++ "!" ++ optS a.target_ident ++ "@" ++ optS a.target_host)

/-- The whois command issued by resolve_nick. -/
def whoisCmd (nk : String) : String := "whois " ++ nk

/-- Models Action.resolve_nick(request).  Resets the resolved fields,
handles pre-resolved masks, otherwise consults the whois cache: a stale
entry (older than ten seconds) is deleted and a fresh whois issued when
requests are permitted, a fresh entry fills in the fields, performing
the gateway template substitution for default host bans. -/
def resolve_nick (request : Bool) (now : Int) (a0 : Action) (st : St) : Action × St :=
  let a := { a0 with target_nick := none, target_ident := none, target_host := none,
                     target_name := none, target_account := none, resolved := false }
  let tgt := optS a.target
  if valid_mask tgt then
    if strStarts tgt "$a:" then
      ({ a with target_account := some (tgt.drop 3), resolved := true }, st)
    else if strStarts tgt "$r:" then
      ({ a with target_name := some (tgt.drop 3), resolved := true }, st)
    else
      match splitSep (fun c => c == '!' || c == '@') tgt.toList with
      | [n, m, h] =>
        ({ a with target_nick := some (String.mk n), target_mask := some (String.mk m),
                  target_host := some (String.mk h), resolved := true }, st)
      | _ => (a, { st with crashed := true })
  else
    let nk := pyLower tgt
    let a2 := { a with target_nick := some nk }
    match alGet st.users nk with
    | some u =>
      if u.time < now - 10 then
        let st2 := { st with users := alDel st.users nk }
        if request then (a2, issue st2 (whoisCmd nk)) else (a2, st2)
      else
        let a3 := { a2 with target_ident := some u.ident, target_host := some u.host,
                            target_name := some u.name,
                            target_name_bannable := some (bannableName u.name),
                            target_account := u.account, resolved := true }
        if strContainsSub u.host "gateway/" && a3.bans == "h" && a3.do_ban then
          let acts2 := a3.actions ++ [gatewayTemplate]
          if hostTemplate ∈ acts2 then ({ a3 with actions := acts2.erase hostTemplate }, st)
          else ({ a3 with actions := acts2 }, { st with crashed := true })
        else (a3, st)
    | none =>
      if request then (a2, issue st (whoisCmd nk)) else (a2, st)

/-- Models Action.fetch_bans: reset both per-channel lists, record the
channel as collecting (appending even when already present) and request
the combined ban/quiet listing. -/
def fetch_bans (ch : String) (st : St) : St :=
  let st1 := { st with bansMap := alSet st.bansMap ch [],
                       quietsMap := alSet st.quietsMap ch [] }
  let st2 := { st1 with collecting_bans := st1.collecting_bans ++ [ch] }
  issue st2 ("mode " ++ ch ++ " +bq")

/-- Replace the first plus sign of a command by a minus sign,
modelling x.replace with count 1 in the reversal construction. -/
def minusFirstPlus : List Char → List Char
  | [] => []
  | c :: rest => if c = '+' then '-' :: rest else c :: minusFirstPlus rest

/-- String-level wrapper of `minusFirstPlus`. -/
def invertCmd (s : String) : String := String.mk (minusFirstPlus s.toList)

/-- The reversal Action constructed in Action.done when a timer is set;
dp is the value of self.deop after the de-escalation scan. -/
def mkReversal (self : Action) (now : Int) (dp : Bool) : Action :=
  { channel := self.channel, me := self.me, stamp := now,
    deop := dp,
    actions := self.actions.map invertCmd,
    target := self.target_nick, target_nick := self.target_nick,
    target_ident := self.target_ident, target_host := self.target_host,
    target_name := self.target_name,
    target_name_bannable := self.target_name_bannable,
    target_account := self.target_account,
    resolved := true, banmode := self.banmode }

/-- The privilege release command issued by Action.done. -/
def deopCmd (ch : String) : String := "chanserv deop " ++ ch

/-- Models Action.done for the queue element at index i: remove it,
then, when it held and required op, de-escalate unless some still
queued intent blocks it (note the Python operator precedence: the
needs_op conjunct is restricted to the same channel, the deop conjunct
is not), and hand the reversal action to the timer when one was
requested. -/
def doneAt (i : Nat) (now : Int) (st : St) : St :=
  match st.pending[i]? with
  | none => st
  | some self =>
    let rest := st.pending.eraseIdx i
    let st2 := { st with pending := rest }
    if !self.am_op || !self.needs_op then st2
    else
      let dp := self.deop &&
        !(rest.any (fun p => (p.channel == self.channel && p.needs_op) || !p.deop))
      let st3 := if dp then issue st2 (deopCmd self.channel) else st2
      if self.timer == 0 then st3
      else { st3 with scheduled := st3.scheduled ++ [mkReversal self now dp] }

/-- The shared loop body of Action.run over one collected entry list:
matching entries are displayed for a bans request and turned into
removal commands for an unban request. -/
def matchLoop (start : Action × St) (entries : List String) (mode tag : String) : Action × St :=
  entries.foldl (fun acc b =>
    if matchBan acc.1 b then
      if acc.1.do_bans then (acc.1, report acc.2 (b ++ tag))
      else ({ acc.1 with actions := acc.1.actions ++ ["mode " ++ acc.1.channel ++ " " ++ mode ++ " " ++ b] }, acc.2)
    else acc) start

/-- Models Action.run for the queue element at index i: emit the bans
header, convert matching collected entries, execute every action
template with %(key)s substitution, then finish via Action.done. -/
def runAt (i : Nat) (now : Int) (st : St) : St :=
  match st.pending[i]? with
  | none => st
  | some self0 =>
    let stA := if self0.do_bans then
        report st ("Bans matching " ++ optS self0.target_nick ++ "!" ++ optS self0.target_ident
          ++ "@" ++ optS self0.target_host ++ " (r:" ++ optS self0.target_name
          ++ ", a:" ++ optS self0.target_account ++ ")")
      else st
    let pair :=
      if self0.do_unban || self0.do_bans then
        let pair1 := matchLoop (self0, stA) ((alGet stA.bansMap self0.channel).getD []) "-b" ""
        matchLoop pair1 ((alGet pair1.2.quietsMap self0.channel).getD []) "-q" " (quiet)"
      else (self0, stA)
    let self1 := pair.1
    let stB := { pair.2 with pending := pair.2.pending.set i self1 }
    let stC := self1.actions.foldl (fun s t => issue s (pySubst self1 t)) stB
    doneAt i now stC

/-- The readiness guard of run_pending: an unban or show-bans intent is
blocked while its channel is still collecting its ban list. -/
def canRunNow (st : St) (p : Action) : Bool :=
  !(st.collecting_bans.contains p.channel && (p.do_unban || p.do_bans))

/-- One iteration body of the run_pending loop at iterator index i:
grant op when the channel was just opped, passively re-resolve from the
cache, abandon on the ten-second timeout, otherwise execute if ready. -/
def sweepStep (jo : Option String) (now : Int) (i : Nat) (st : St) : St :=
  match st.pending[i]? with
  | none => st
  | some p0 =>
    let p1 := if some p0.channel == jo then { p0 with am_op := true } else p0
    let pr :=
      match p1.target_nick with
      | some nk =>
        if (alGet st.users nk).isSome && !p1.resolved then resolve_nick false now p1 st
        else (p1, st)
      | none => (p1, st)
    let p2 := pr.1
    let st3 := { pr.2 with pending := pr.2.pending.set i p2 }
    if p2.stamp < now - 10 then doneAt i now st3
    else if canRunNow st3 p2 && p2.resolved && (p2.am_op || !p2.needs_op) then runAt i now st3
    else st3

/-- The run_pending for-loop: the iterator index advances by one per
iteration regardless of removals; fuel starts at the queue length,
which never grows during a sweep. -/
def runLoop (jo : Option String) (now : Int) : Nat → Nat → St → St
  | 0, _, st => st
  | f + 1, i, st =>
    if (st.pending[i]?).isSome then runLoop jo now f (i + 1) (sweepStep jo now i st)
    else st

/-- Models run_pending(just_opped). -/
def run_pending (jo : Option String) (now : Int) (st : St) : St :=
  runLoop jo now st.pending.length 0 st

/-- The op-detection loop at the top of Action.schedule: when the
requester already has the op prefix, mark the intent opped and suppress
its later de-escalation. -/
def admitPrep (chanUsers : List (String × String)) (a : Action) : Action :=
  if chanUsers.any (fun u => u.1 == a.me && u.2 == "@")
  then { a with am_op := true, deop := false }
  else { a with am_op := false }

/-- Models Action.schedule: append to the queue, request op if needed,
reject account/realname dimensions on a raw mask (note: the intent has
already been appended), resolve the target, start ban collection for
unban/show-bans, and sweep.  The returned boolean is the xchat.EAT_ALL
signal, returned on every path. -/
def schedule (chanUsers : List (String × String)) (now : Int) (a0 : Action) (st0 : St) : St × Bool :=
  let a := admitPrep chanUsers a0
  let i := st0.pending.length
  let st1 := { st0 with pending := st0.pending ++ [a] }
  let st2 := if a.needs_op && !a.am_op then issue st1 ("chanserv op " ++ a.channel) else st1
  let tgt := optS a.target
  if (charIn 'a' a.bans || charIn 'r' a.bans) && valid_mask tgt && !(strStarts tgt "$") then
    (report st2 ("Invalid argument " ++ tgt ++ " for account/realname ban"), true)
  else
    let pr := if a.do_ban || a.do_unban || a.do_bans then resolve_nick true now a st2
              else ({ a with target_nick := a.target }, st2)
    let st3 := { pr.2 with pending := pr.2.pending.set i pr.1 }
    let st4 := if pr.1.do_unban || pr.1.do_bans then fetch_bans pr.1.channel st3 else st3
    (run_pending none now st4, true)

/-- The do_endwas for-loop with Python iterator index semantics: report
and remove each examined intent whose target equals the nickname. -/
def endwasLoop (nick : String) : Nat → Nat → List Action → List String → List Action × List String
  | 0, _, l, out => (l, out)
  | f + 1, k, l, out =>
    match l[k]? with
    | none => (l, out)
    | some p =>
      if p.target == some nick then
        endwasLoop nick f (k + 1) (l.eraseIdx k) (out ++ [optS p.target ++ " could not be found"])
      else endwasLoop nick f (k + 1) l out

/-- Models do_endwas (server event 406, lookup exhausted). -/
def do_endwas (nick : String) (st : St) : St :=
  let r := endwasLoop nick st.pending.length 0 st.pending []
  { st with pending := r.1, reports := st.reports ++ r.2 }

/-- Models do_endquiet (server event 729): a single end-of-quiets event
removes one occurrence of the channel from the collecting list and
sweeps the queue. -/
def do_endquiet (ch : String) (now : Int) (st : St) : St :=
  if st.collecting_bans.contains ch then
    run_pending none now { st with collecting_bans := st.collecting_bans.erase ch }
  else st

/-! Specification-side definitions, written from the wording of the
spec (not from the code), used to compare the code's behaviour with
the claimed behaviour. -/

/-- Modelled from the spec: stripping a trailing forward-channel
reference (everything from the first dollar-hash on) from a stored
mask before compiling it, leaving the rest of the mask intact. -/
def stripFwdSpec (s : String) : String :=
  match findDH s.toList with
  | some n => String.mk (s.toList.take n)
  | none => s

/-- Modelled from the spec: the matcher the specification describes for
stored masks — an account or realname mask is matched against the
corresponding single field only, and a trailing forward-channel suffix
is stripped before compiling; used only for comparison with the
source-derived `matchBan`. -/
def matchSpec (a : Action) (ban : String) : Bool :=
  if strStarts ban "$r:" then wcMatchS (stripFwdSpec (ban.drop 3)) (optS a.target_name)
  else if strStarts ban "$a:" then wcMatchS (stripFwdSpec (ban.drop 3)) (optS a.target_account)
  else wcMatchS (stripFwdSpec ban)
    (optS a.target_nick ++ "!" ++ optS a.target_ident ++ "@" ++ optS a.target_host)

/-- Modelled from the spec: the language of a wildcard mask, anchored
at both ends — star matches any run of characters, question mark
exactly one character, and every other character only itself. -/
inductive WildSpec : List Char → List Char → Prop where
  | nil : WildSpec [] []
  | star_skip (ps cs : List Char) : WildSpec ps cs → WildSpec ('*' :: ps) cs
  | star_take (ps : List Char) (c : Char) (cs : List Char) :
      WildSpec ('*' :: ps) cs → WildSpec ('*' :: ps) (c :: cs)
  | one (ps : List Char) (c : Char) (cs : List Char) :
      WildSpec ps cs → WildSpec ('?' :: ps) (c :: cs)
  | lit (p : Char) (ps : List Char) (c : Char) (cs : List Char) :
      p ≠ '*' → p ≠ '?' → p = c → WildSpec ps cs → WildSpec (p :: ps) (c :: cs)

/-- The outcome of one do_endwas scan over the remaining queue,
expressed recursively: a removed intent makes the scan skip the entry
directly after it. -/
def endwasSpec (nick : String) : List Action → List Action × List String
  | [] => ([], [])
  | p :: rest =>
    if p.target == some nick then
      match rest with
      | [] => ([], [optS p.target ++ " could not be found"])
      | q :: rest2 =>
        let r := endwasSpec nick rest2
        (q :: r.1, (optS p.target ++ " could not be found") :: r.2)
    else
      let r := endwasSpec nick rest
      (p :: r.1, r.2)

/-- No two adjacent queue entries both target the given nickname. -/
def noAdjMatch (nick : String) : List Action → Bool
  | [] => true
  | [_] => true
  | p :: q :: rest =>
    !(p.target == some nick && q.target == some nick) && noAdjMatch nick (q :: rest)

/-! Concrete inputs used by the witnesses and counterexamples. -/

/-- A ready intent (resolved, no op needed) with one command template. -/
def cActA : Action := { channel := "#c", me := "m", stamp := 0, needs_op := false, actions := ["cmdA"] }

/-- A second ready intent queued directly after `cActA`. -/
def cActB : Action := { channel := "#c", me := "m", stamp := 0, needs_op := false, actions := ["cmdB"] }

/-- Queue holding two simultaneously ready intents. -/
def cStTwoReady : St := { pending := [cActA, cActB] }

/-- An opped, unresolved intent whose stamp is long past. -/
def cTimeoutAct : Action :=
  { channel := "#c", me := "m", stamp := 0, am_op := true, resolved := false,
    actions := ["mode %(channel)s +b x"] }

/-- State with only the timed-out intent queued. -/
def cStTimeout : St := { pending := [cTimeoutAct] }

/-- A completed intent on #a that held and required op. -/
def cDeopSelf : Action := { channel := "#a", me := "m", stamp := 0, am_op := true }

/-- A queued intent for a different channel with de-escalation suppressed. -/
def cDeopOther : Action := { channel := "#b", me := "m", stamp := 0, needs_op := false, deop := false }

/-- Queue for the cross-channel de-escalation scenario. -/
def cStDeop : St := { pending := [cDeopSelf, cDeopOther] }

/-- Queue holding only the completing intent. -/
def cStDeopSolo : St := { pending := [cDeopSelf] }

/-- A host ban intent targeting the nickname bob. -/
def cBanBob : Action :=
  { channel := "#c", me := "m", stamp := 0, do_ban := true, bans := "h",
    target := some "bob", actions := [hostTemplate] }

/-- A cached whois entry for bob on an ordinary host. -/
def cFreshUser : UserEnt := { nick := "bob", ident := "id", host := "example.com", name := "Bob X", time := 0 }

/-- A cached whois entry for bob behind a gateway host. -/
def cGwUser : UserEnt := { nick := "bob", ident := "id", host := "gateway/web/foo", name := "B", time := 0 }

/-- An account-dimension ban aimed at a raw mask (the validation case). -/
def cMaskBanAct : Action :=
  { channel := "#c", me := "m", stamp := 0, do_ban := true, bans := "a", target := some "x!y@z" }

/-- A candidate with a resolved account field. -/
def cAcctAct : Action := { channel := "#c", me := "m", stamp := 0, target_account := some "bob" }

/-- First queued intent targeting bob. -/
def cWasA : Action := { channel := "#c", me := "m", stamp := 0, target := some "bob" }

/-- Second queued intent targeting bob. -/
def cWasB : Action := { channel := "#c", me := "m", stamp := 1, target := some "bob" }

/-- A queued intent targeting a different nickname. -/
def cWasC : Action := { channel := "#c", me := "m", stamp := 2, target := some "alice" }

/-- Queue with two adjacent intents targeting bob. -/
def cStWasAdj : St := { pending := [cWasA, cWasB] }

/-- Queue where the two bob intents are separated by an alice intent. -/
def cStWasSep : St := { pending := [cWasA, cWasC, cWasB] }

/-- State in which #c was recorded as collecting twice. -/
def cStCollect : St := { collecting_bans := ["#c", "#c"] }

/-- An unban intent for #c, which depends on the collected ban list. -/
def cUnbanAct : Action := { channel := "#c", me := "m", stamp := 0, do_unban := true, target := some "bob" }

/-! Helper lemmas. -/

theorem sufAny_of_self {f : List Char → Bool} {cs : List Char} (h : f cs = true) :
    sufAny f cs = true := by
  cases cs with
  | nil => simpa [sufAny] using h
  | cons c cs => simp [sufAny, h]

theorem wild_sound {ps cs : List Char} (h : WildSpec ps cs) : wcMatch ps cs = true := by
  induction h with
  | nil => rfl
  | star_skip ps cs _ ih =>
    simpa [wcMatch] using sufAny_of_self ih
  | star_take ps c cs _ ih =>
    have ih2 : sufAny (wcMatch ps) cs = true := by simpa [wcMatch] using ih
    show wcMatch ('*' :: ps) (c :: cs) = true
    simp [wcMatch, sufAny, ih2]
  | one ps c cs _ ih => simp [wcMatch, ih]
  | lit p ps c cs hp hq hpc _ ih =>
    subst hpc
    simp [wcMatch, hp, hq, ih]

theorem wild_complete : ∀ ps cs : List Char, wcMatch ps cs = true → WildSpec ps cs := by
  intro ps
  induction ps with
  | nil =>
    intro cs h
    cases cs with
    | nil => exact WildSpec.nil
    | cons c cs => simp [wcMatch] at h
  | cons p ps ih =>
    intro cs h
    by_cases hp : p = '*'
    · subst hp
      have h2 : sufAny (wcMatch ps) cs = true := by simpa [wcMatch] using h
      clear h
      induction cs with
      | nil =>
        exact WildSpec.star_skip _ _ (ih [] (by simpa [sufAny] using h2))
      | cons c cs ihc =>
        simp only [sufAny, Bool.or_eq_true] at h2
        rcases h2 with h3 | h4
        · exact WildSpec.star_skip _ _ (ih (c :: cs) h3)
        · exact WildSpec.star_take _ _ _ (ihc h4)
    · cases cs with
      | nil => simp [wcMatch, hp] at h
      | cons c cs2 =>
        simp only [wcMatch, if_neg hp, Bool.and_eq_true, Bool.or_eq_true] at h
        obtain ⟨h1, h5⟩ := h
        by_cases hq : p = '?'
        · exact hq ▸ WildSpec.one _ _ _ (ih cs2 h5)
        · have hpc : p = c := by
            rcases h1 with h6 | h7
            · exact absurd (by exact decide_eq_true_eq.mp h6) hq
            · exact beq_iff_eq.mp h7
          exact WildSpec.lit p ps c cs2 hp hq hpc (ih cs2 h5)

theorem strStarts_r_not_a {s : String} (h : strStarts s "$r:" = true) :
    strStarts s "$a:" = false := by
  unfold strStarts at h ⊢
  rw [show ("$r:".toList) = ['$', 'r', ':'] from rfl] at h
  rw [show ("$a:".toList) = ['$', 'a', ':'] from rfl]
  generalize s.toList = l at h ⊢
  cases l with
  | nil => simp [leadsList] at h
  | cons b bs =>
    cases bs with
    | nil => simp [leadsList] at h
    | cons c cs =>
      simp only [leadsList, Bool.and_eq_true, beq_iff_eq] at h
      rw [Bool.eq_false_iff]
      intro hc
      simp only [leadsList, Bool.and_eq_true, beq_iff_eq] at hc
      exact absurd (h.2.1.trans hc.2.1.symm) (by decide)

theorem toList_mk (l : List Char) : (String.mk l).toList = l := rfl

theorem findDH_append (bl fl : List Char) (h : '#' ∉ bl) :
    findDH (bl ++ '$' :: '#' :: fl) = some bl.length := by
  induction bl with
  | nil =>
    show findDH ('$' :: '#' :: fl) = some 0
    rw [findDH, if_pos (by exact ⟨rfl, rfl⟩)]
  | cons c bl ih =>
    have hc : '#' ∉ bl := fun hx => h (List.mem_cons_of_mem _ hx)
    cases bl with
    | nil =>
      show findDH (c :: '$' :: '#' :: fl) = some 1
      rw [findDH, if_neg (by rintro ⟨-, h2⟩; exact absurd h2 (by decide))]
      rw [show findDH ('$' :: '#' :: fl) = some 0 from by
        rw [findDH, if_pos (by exact ⟨rfl, rfl⟩)]]
      rfl
    | cons d bl2 =>
      have hd : d ≠ '#' := fun hx => hc (hx ▸ List.mem_cons_self d bl2)
      show findDH (c :: d :: (bl2 ++ '$' :: '#' :: fl)) = some (bl2.length + 2)
      rw [findDH, if_neg (by rintro ⟨-, h2⟩; exact hd h2)]
      rw [show findDH (d :: (bl2 ++ '$' :: '#' :: fl)) = some (bl2.length + 1) from by
        simpa using ih hc]
      rfl

/-! Claim theorems. -/

/-- C7: compiling a wildcard mask yields an anchored matcher in which a
star matches any run of characters, a question mark exactly one
character, and every other character only itself; in particular the
mask a*b?c matches axxbyc and does not match ac. -/
theorem c7_wildcard_semantics :
    (∀ ps cs : List Char, wcMatch ps cs = true ↔ WildSpec ps cs) ∧
    wcMatchS "a*b?c" "axxbyc" = true ∧ wcMatchS "a*b?c" "ac" = false :=
  ⟨fun ps cs => ⟨wild_complete ps cs, wild_sound⟩, by decide, by decide⟩

/-- C7 witness: the general semantics applied at the concrete mask and
text of the claim. -/
theorem c7_witness_wildcard : WildSpec "a*b?c".toList "axxbyc".toList :=
  (c7_wildcard_semantics.1 "a*b?c".toList "axxbyc".toList).mp (by decide)

/-- C1: failing input for the sweep-completeness claim — with two
simultaneously ready intents queued, the sweep executes only the first
one: removing it shifts the second intent under the iterator index, so
the second stays queued and issues nothing during this sweep, although
it is resolved and needs no privilege. -/
theorem c1_skipped_ready_intent :
    (run_pending none 0 cStTwoReady).cmds = ["cmdA"] ∧
    (run_pending none 0 cStTwoReady).pending = [cActB] ∧
    cActB.resolved = true ∧ cActB.needs_op = false := by decide

/-- C3 counterexample: abandoning a timed-out intent that held and
required privilege issues the privilege-release command, so an
abandonment is not command-free as claimed; removal itself is silent
and none of the intent's own templates run. -/
theorem c3_counterexample_deop_issued :
    (run_pending none 100 cStTimeout).cmds = [deopCmd "#c"] ∧
    (run_pending none 100 cStTimeout).reports = [] ∧
    (run_pending none 100 cStTimeout).pending = [] := by decide

/-- C6 counterexample: a stored account mask with a trailing
forward-channel suffix is compiled with the suffix still in place
(Action.match only strips in the composite branch), so the mask
dollar-a colon bob dollar-hash x fails to match account bob although
the specified stripping behaviour would match it. -/
theorem c6_counterexample_suffix_kept :
    matchBan cAcctAct "$a:bob$#x" = false ∧ matchSpec cAcctAct "$a:bob$#x" = true := by decide

/-- C6 amended: account and realname masks are matched against the
corresponding single field only when that field is present and
nonempty, with no forward-suffix stripping in those branches; when the
field is absent the match falls back to the composite nick-ident-host
string; the dollar-hash forward suffix is stripped (leaving the rest
of the mask intact) only in the composite branch. -/
theorem c6_amended_match_behaviour :
    (∀ (a : Action) (ban : String), strStarts ban "$r:" = true → truthy a.target_name = true →
        matchBan a ban = wcMatchS (ban.drop 3) (optS a.target_name)) ∧
    (∀ (a : Action) (ban : String), strStarts ban "$a:" = true → truthy a.target_account = true →
        matchBan a ban = wcMatchS (ban.drop 3) (optS a.target_account)) ∧
    (∀ (a : Action) (ban : String), strStarts ban "$r:" = true → a.target_name = none →
        strStarts ban "$a:" = false →
        matchBan a ban = wcMatchS (if ban.toList.contains '#' then stripAtDH ban else ban)
          (optS a.target_nick ++ "!" ++ optS a.target_ident ++ "@" ++ optS a.target_host)) ∧
    (∀ (a : Action) (bl fl : List Char),
        strStarts (String.mk (bl ++ '$' :: '#' :: fl)) "$r:" = false →
        strStarts (String.mk (bl ++ '$' :: '#' :: fl)) "$a:" = false →
        '#' ∉ bl →
        matchBan a (String.mk (bl ++ '$' :: '#' :: fl)) =
          wcMatchS (String.mk bl)
            (optS a.target_nick ++ "!" ++ optS a.target_ident ++ "@" ++ optS a.target_host)) := by
  refine ⟨?_, ?_, ?_, ?_⟩
  · intro a ban h1 h2
    simp [matchBan, h1, h2]
  · intro a ban h1 h2
    have hr : strStarts ban "$r:" = false := by
      by_cases hx : strStarts ban "$r:" = true
      · exact absurd h1 (by rw [strStarts_r_not_a hx]; decide)
      · exact Bool.not_eq_true _ ▸ Bool.eq_false_iff.mpr hx
    simp [matchBan, h1, h2, hr]
  · intro a ban h1 h2 h3
    simp [matchBan, h1, h2, h3, truthy]
  · intro a bl fl h1 h2 h3
    have hcontains : (String.mk (bl ++ '$' :: '#' :: fl)).toList.contains '#' = true := by
      rw [toList_mk]
      exact List.elem_iff.mpr (List.mem_append_right bl (by simp))
    have hstrip : stripAtDH (String.mk (bl ++ '$' :: '#' :: fl)) = String.mk bl := by
      unfold stripAtDH
      rw [toList_mk, findDH_append bl fl h3]
      dsimp only
      rw [List.take_left]
    simp [matchBan, h1, h2, hcontains, hstrip]

/-- C6 witness: the amended behaviour instantiated at a concrete
account mask (no stripping in the account branch) and a concrete
composite mask carrying a forward suffix (stripped, rest intact). -/
theorem c6_witness_match :
    (matchBan cAcctAct "$a:bob" = wcMatchS ("$a:bob".drop 3) (optS cAcctAct.target_account)) ∧
    (matchBan cAcctAct (String.mk ("*!*@h".toList ++ '$' :: '#' :: "x".toList)) =
      wcMatchS (String.mk "*!*@h".toList)
        (optS cAcctAct.target_nick ++ "!" ++ optS cAcctAct.target_ident ++ "@"
          ++ optS cAcctAct.target_host)) := by
  refine ⟨c6_amended_match_behaviour.2.1 cAcctAct "$a:bob" (by decide) (by decide), ?_⟩
  exact c6_amended_match_behaviour.2.2.2 cAcctAct "*!*@h".toList "x".toList
    (by decide) (by decide) (by decide)

theorem admitPrep_bans (cu : List (String × String)) (a : Action) :
    (admitPrep cu a).bans = a.bans := by
  unfold admitPrep; split <;> rfl

theorem admitPrep_target (cu : List (String × String)) (a : Action) :
    (admitPrep cu a).target = a.target := by
  unfold admitPrep; split <;> rfl

/-- C2 counterexample: admitting an account-dimension ban aimed at a
raw mask reports the validation error and signals handled, but the
intent was appended to the queue before validation and stays there. -/
theorem c2_counterexample_zombie_admitted :
    (schedule [] 0 cMaskBanAct ({} : St)).1.pending ≠ [] ∧
    (schedule [] 0 cMaskBanAct ({} : St)).2 = true ∧
    (schedule [] 0 cMaskBanAct ({} : St)).1.reports =
      ["Invalid argument x!y@z for account/realname ban"] := by decide

/-- C2 amended: when the account/realname-with-mask validation fails
during admission, the call still signals handled and reports a
user-visible error, but the failing intent — appended to the pending
queue at the start of admission — remains in the queue. -/
theorem c2_amended_zombie_queued (cu : List (String × String)) (now : Int) (a : Action) (st : St)
    (h1 : (charIn 'a' a.bans || charIn 'r' a.bans) = true)
    (h2 : valid_mask (optS a.target) = true)
    (h3 : strStarts (optS a.target) "$" = false) :
    (schedule cu now a st).2 = true ∧
    (schedule cu now a st).1.pending = st.pending ++ [admitPrep cu a] ∧
    (schedule cu now a st).1.reports =
      st.reports ++ ["Invalid argument " ++ optS a.target ++ " for account/realname ban"] := by
  unfold schedule
  dsimp only
  rw [admitPrep_bans, admitPrep_target, h1, h2, h3]
  simp only [Bool.true_and, Bool.not_false, Bool.and_true, if_true]
  split <;> refine ⟨?_, rfl, rfl⟩ <;> trivial

/-- C2 witness: the amended claim instantiated at the concrete failing
admission. -/
theorem c2_witness_zombie :
    (schedule [] 0 cMaskBanAct ({} : St)).1.pending = [admitPrep [] cMaskBanAct] ∧
    (schedule [] 0 cMaskBanAct ({} : St)).1.reports =
      ["Invalid argument x!y@z for account/realname ban"] := by
  have h := c2_amended_zombie_queued [] 0 cMaskBanAct ({} : St) (by decide) (by decide) (by decide)
  exact ⟨h.2.1.trans rfl, h.2.2.trans rfl⟩

/-- C4 counterexample: a completed intent on one channel that held and
required privilege is denied its privilege release because a queued
intent for a different channel has suppressed de-escalation, although
the claim says other channels never affect the decision. -/
theorem c4_counterexample_cross_channel :
    ¬((((doneAt 0 0 cStDeop).cmds ≠ cStDeop.cmds)) ↔
      (∀ p ∈ cStDeop.pending.eraseIdx 0,
        ¬((p.channel = "#a" ∧ p.needs_op = true) ∨ (p.channel = "#a" ∧ p.deop = false)))) := by
  decide

/-- C4 amended: after an intent that held and required privilege
completes, the release command is issued iff the intent's own
de-escalation flag is still set and no still-queued intent either
needs privilege on the same channel or has suppressed de-escalation on
any channel (the suppressed-de-escalation conjunct ignores the
channel). -/
theorem c4_amended_deop_decision (i : Nat) (now : Int) (st : St) (self : Action)
    (h : st.pending[i]? = some self) :
    (((doneAt i now st).cmds ≠ st.cmds) ↔
      (self.am_op = true ∧ self.needs_op = true ∧ self.deop = true ∧
        ∀ p ∈ st.pending.eraseIdx i,
          ¬((p.channel = self.channel ∧ p.needs_op = true) ∨ p.deop = false))) ∧
    ((doneAt i now st).cmds ≠ st.cmds →
      (doneAt i now st).cmds = st.cmds ++ [deopCmd self.channel]) := by
  unfold doneAt
  rw [h]
  dsimp only
  by_cases h1 : (!self.am_op || !self.needs_op) = true
  · rw [if_pos h1]
    refine ⟨⟨fun hne => absurd rfl hne, fun hrhs => ?_⟩, fun hne => absurd rfl hne⟩
    simp only [Bool.or_eq_true, Bool.not_eq_true'] at h1
    rcases h1 with h2 | h2
    · rw [hrhs.1] at h2; exact absurd h2 (by decide)
    · rw [hrhs.2.1] at h2; exact absurd h2 (by decide)
  · have hao : self.am_op = true ∧ self.needs_op = true := by
      constructor <;> (by_contra hx ; apply h1 ; simp [Bool.not_eq_true] at hx ; simp [hx])
    rw [if_neg h1]
    by_cases h2 : (self.deop &&
        !((st.pending.eraseIdx i).any fun p =>
            (p.channel == self.channel && p.needs_op) || !p.deop)) = true
    · rw [if_pos h2]
      have h2x := h2
      rw [Bool.and_eq_true, Bool.not_eq_true'] at h2x
      obtain ⟨hd, hanyf⟩ := h2x
      have hcm : (if self.timer == 0 then
            issue { st with pending := st.pending.eraseIdx i } (deopCmd self.channel)
          else { issue { st with pending := st.pending.eraseIdx i } (deopCmd self.channel) with
                 scheduled := (issue { st with pending := st.pending.eraseIdx i }
                   (deopCmd self.channel)).scheduled ++ [mkReversal self now
                     (self.deop && !((st.pending.eraseIdx i).any fun p =>
                       (p.channel == self.channel && p.needs_op) || !p.deop))] }).cmds
          = st.cmds ++ [deopCmd self.channel] := by
        split <;> rfl
      rw [hcm]
      refine ⟨⟨fun _ => ⟨hao.1, hao.2, hd, ?_⟩, fun _ => by simp⟩, fun _ => rfl⟩
      intro p hp hcond
      have hpt : ((p.channel == self.channel && p.needs_op) || !p.deop) = true := by
        rcases hcond with ⟨hc1, hc2⟩ | hc3
        · simp [hc1, hc2]
        · simp [hc3]
      have hx : ((st.pending.eraseIdx i).any fun q =>
          (q.channel == self.channel && q.needs_op) || !q.deop) = true :=
        List.any_eq_true.mpr ⟨p, hp, hpt⟩
      rw [hx] at hanyf
      exact absurd hanyf (by simp)
    · rw [if_neg h2]
      have hcm : (if self.timer == 0 then { st with pending := st.pending.eraseIdx i }
          else { { st with pending := st.pending.eraseIdx i } with
                 scheduled := ({ st with pending := st.pending.eraseIdx i }).scheduled
                   ++ [mkReversal self now (self.deop &&
                     !((st.pending.eraseIdx i).any fun p =>
                       (p.channel == self.channel && p.needs_op) || !p.deop))] }).cmds
          = st.cmds := by
        split <;> rfl
      rw [hcm]
      refine ⟨⟨fun hne => absurd rfl hne, fun hrhs => absurd ?_ h2⟩, fun hne => absurd rfl hne⟩
      rw [hrhs.2.2.1, Bool.true_and, Bool.not_eq_true']
      rw [Bool.eq_false_iff]
      intro hany
      obtain ⟨p, hp, hpt⟩ := List.any_eq_true.mp hany
      apply hrhs.2.2.2 p hp
      simpa using hpt

/-- C4 witness: with an empty remaining queue the completed opped
intent does issue the release command. -/
theorem c4_witness_solo_deop :
    (doneAt 0 0 cStDeopSolo).cmds = [deopCmd "#a"] := by
  have h := (c4_amended_deop_decision 0 0 cStDeopSolo cDeopSelf (by decide)).2 (by decide)
  exact h.trans rfl

/-- C5 counterexample: two admissions for the same uncached nickname,
with no identity reply in between, each issue their own identity
request, so two requests for one nickname are outstanding at once. -/
theorem c5_counterexample_double_whois :
    ((schedule [] 0 cBanBob (schedule [] 0 cBanBob ({} : St)).1).1.cmds.count
      (whoisCmd "bob")) = 2 := by decide

/-- C5 amended: a single resolution attempt issues at most one identity
request — a cached entry newer than ten seconds is reused with no
request at all, and a stale entry is discarded and triggers exactly one
new request when requests are permitted; distinct admissions for the
same nickname may however each issue their own request. -/
theorem c5_amended_cache_discipline :
    (∀ (req : Bool) (now : Int) (a : Action) (st : St) (u : UserEnt),
        valid_mask (optS a.target) = false →
        alGet st.users (pyLower (optS a.target)) = some u →
        ¬(u.time < now - 10) →
        (resolve_nick req now a st).2.cmds = st.cmds ∧
        (resolve_nick req now a st).2.users = st.users ∧
        (resolve_nick req now a st).1.resolved = true) ∧
    (∀ (now : Int) (a : Action) (st : St) (u : UserEnt),
        valid_mask (optS a.target) = false →
        alGet st.users (pyLower (optS a.target)) = some u →
        u.time < now - 10 →
        (resolve_nick true now a st).2.cmds = st.cmds ++ [whoisCmd (pyLower (optS a.target))] ∧
        (resolve_nick true now a st).2.users = alDel st.users (pyLower (optS a.target)) ∧
        (resolve_nick true now a st).1.resolved = false) := by
  constructor
  · intro req now a st u hm hu hfr
    unfold resolve_nick
    dsimp only
    rw [hm]
    simp only [Bool.false_eq_true, if_false]
    rw [hu]
    dsimp only
    rw [if_neg hfr]
    split
    · split <;> exact ⟨rfl, rfl, rfl⟩
    · exact ⟨rfl, rfl, rfl⟩
  · intro now a st u hm hu hst
    unfold resolve_nick
    dsimp only
    rw [hm]
    simp only [Bool.false_eq_true, if_false]
    rw [hu]
    dsimp only
    rw [if_pos hst]
    exact ⟨rfl, rfl, rfl⟩

/-- C5 witness: the amended claim instantiated — a fresh bob entry is
reused silently and a stale one triggers exactly one whois. -/
theorem c5_witness_cache :
    (resolve_nick true 5 cBanBob { users := [("bob", cFreshUser)] }).2.cmds = [] ∧
    (resolve_nick true 20 cBanBob { users := [("bob", cFreshUser)] }).2.cmds = [whoisCmd "bob"] := by
  have h1 := (c5_amended_cache_discipline.1 true 5 cBanBob
    { users := [("bob", cFreshUser)] } cFreshUser (by decide) (by decide) (by decide)).1
  have h2 := (c5_amended_cache_discipline.2 20 cBanBob
    { users := [("bob", cFreshUser)] } cFreshUser (by decide) (by decide) (by decide)).1
  exact ⟨h1.trans rfl, h2.trans (by decide)⟩

/-- C9: resolving a ban intent with the default host-only policy from a
fresh cache entry whose host carries the gateway marker replaces the
literal host template by the ident/gateway wildcard template. -/
theorem c9_gateway_substitution (req : Bool) (now : Int) (a : Action) (st : St) (u : UserEnt)
    (pre suf : List String)
    (hm : valid_mask (optS a.target) = false)
    (hu : alGet st.users (pyLower (optS a.target)) = some u)
    (hfr : ¬(u.time < now - 10))
    (hgw : strContainsSub u.host "gateway/" = true)
    (hb : a.bans = "h") (hdb : a.do_ban = true)
    (hacts : a.actions = pre ++ hostTemplate :: suf)
    (hpre : hostTemplate ∉ pre) (hsuf : hostTemplate ∉ suf) :
    gatewayTemplate ∈ (resolve_nick req now a st).1.actions ∧
    hostTemplate ∉ (resolve_nick req now a st).1.actions ∧
    (resolve_nick req now a st).1.resolved = true := by
  unfold resolve_nick
  dsimp only
  rw [hm]
  simp only [Bool.false_eq_true, if_false]
  rw [hu]
  dsimp only
  rw [if_neg hfr]
  rw [hgw, hb, hdb]
  simp only [Bool.true_and, Bool.and_true]
  rw [if_pos (by decide : (("h" : String) == "h") = true)]
  rw [hacts]
  have hmem : hostTemplate ∈ (pre ++ hostTemplate :: suf) ++ [gatewayTemplate] :=
    List.mem_append_left _ (List.mem_append_right _ (List.mem_cons_self _ _))
  rw [if_pos hmem]
  have herase : ((pre ++ hostTemplate :: suf) ++ [gatewayTemplate]).erase hostTemplate
      = pre ++ (suf ++ [gatewayTemplate]) := by
    rw [List.append_assoc, List.cons_append]
    rw [List.erase_append_right _ hpre, List.erase_cons_head]
  rw [herase]
  refine ⟨List.mem_append_right _ (List.mem_append_right _ (List.mem_singleton.mpr rfl)), ?_, rfl⟩
  intro hx
  rcases List.mem_append.mp hx with hx1 | hx2
  · exact hpre hx1
  · rcases List.mem_append.mp hx2 with hx3 | hx4
    · exact hsuf hx3
    · exact absurd (List.mem_singleton.mp hx4) (by decide)

/-- C9 witness: the substitution at a concrete gateway user. -/
theorem c9_witness_gateway :
    gatewayTemplate ∈ (resolve_nick true 5 cBanBob { users := [("bob", cGwUser)] }).1.actions ∧
    hostTemplate ∉ (resolve_nick true 5 cBanBob { users := [("bob", cGwUser)] }).1.actions ∧
    (resolve_nick true 5 cBanBob { users := [("bob", cGwUser)] }).1.resolved = true :=
  c9_gateway_substitution true 5 cBanBob { users := [("bob", cGwUser)] } cGwUser [] []
    (by decide) (by decide) (by decide) (by decide) (by decide) (by decide) rfl
    (by decide) (by decide)

theorem resolve_nick_false_inv (now : Int) (a : Action) (st : St) :
    (resolve_nick false now a st).2.cmds = st.cmds ∧
    (resolve_nick false now a st).2.reports = st.reports ∧
    (resolve_nick false now a st).2.pending = st.pending ∧
    (resolve_nick false now a st).1.stamp = a.stamp ∧
    (resolve_nick false now a st).1.channel = a.channel := by
  unfold resolve_nick
  dsimp only
  repeat' split
  all_goals first
    | exact ⟨rfl, rfl, rfl, rfl, rfl⟩
    | contradiction

theorem doneAt_spec (i : Nat) (now : Int) (st : St) (self : Action)
    (h : st.pending[i]? = some self) :
    (doneAt i now st).pending = st.pending.eraseIdx i ∧
    (doneAt i now st).reports = st.reports ∧
    ((doneAt i now st).cmds = st.cmds ∨
      (doneAt i now st).cmds = st.cmds ++ [deopCmd self.channel]) := by
  unfold doneAt
  rw [h]
  dsimp only
  split
  · exact ⟨rfl, rfl, Or.inl rfl⟩
  · repeat' split
    all_goals first
      | exact ⟨rfl, rfl, Or.inl rfl⟩
      | exact ⟨rfl, rfl, Or.inr rfl⟩

theorem doneAt_after_set (i : Nat) (now : Int) (stx : St) (q : Action)
    (hi : i < stx.pending.length) :
    (doneAt i now { stx with pending := stx.pending.set i q }).pending.length + 1
        = stx.pending.length ∧
    (doneAt i now { stx with pending := stx.pending.set i q }).reports = stx.reports ∧
    ((doneAt i now { stx with pending := stx.pending.set i q }).cmds = stx.cmds ∨
      (doneAt i now { stx with pending := stx.pending.set i q }).cmds
        = stx.cmds ++ [deopCmd q.channel]) := by
  have hset : ({ stx with pending := stx.pending.set i q } : St).pending[i]? = some q := by
    show (stx.pending.set i q)[i]? = some q
    rw [List.getElem?_set]
    simp [hi]
  obtain ⟨h1, h2, h3⟩ := doneAt_spec i now _ q hset
  refine ⟨?_, h2, h3⟩
  rw [h1]
  show ((stx.pending.set i q).eraseIdx i).length + 1 = stx.pending.length
  rw [List.length_eraseIdx, List.length_set]
  rw [if_pos hi]
  omega

/-- C3 amended: each queued intent the sweep examines whose age exceeds
ten seconds is removed from the queue with no user report and without
running any of its queued command templates; the abandonment runs the
normal completion cleanup, which can issue one privilege-release
command (and records the deferred reversal when a reversal delay was
set). -/
theorem c3_amended_silent_timeout (jo : Option String) (now : Int) (i : Nat) (st : St)
    (p : Action) (hp : st.pending[i]? = some p) (ht : p.stamp < now - 10) :
    (sweepStep jo now i st).pending.length + 1 = st.pending.length ∧
    (sweepStep jo now i st).reports = st.reports ∧
    ((sweepStep jo now i st).cmds = st.cmds ∨
      (sweepStep jo now i st).cmds = st.cmds ++ [deopCmd p.channel]) := by
  obtain ⟨hi, -⟩ := List.getElem?_eq_some.mp hp
  unfold sweepStep
  rw [hp]
  dsimp only
  set p1 := (if some p.channel == jo then { p with am_op := true } else p) with hp1
  have hstamp : p1.stamp = p.stamp := by rw [hp1]; split <;> rfl
  have hchan : p1.channel = p.channel := by rw [hp1]; split <;> rfl
  rcases hnick : p1.target_nick with _ | nk
  · simp only [hnick]
    rw [if_pos (by rw [hstamp]; exact ht)]
    have h4 := doneAt_after_set i now st p1 hi
    rw [hchan] at h4
    exact h4
  · simp only [hnick]
    by_cases hres : ((alGet st.users nk).isSome && !p1.resolved) = true
    · rw [if_pos hres]
      obtain ⟨hc, hr, hpd, hstamp2, hchan2⟩ := resolve_nick_false_inv now p1 st
      rw [if_pos (by rw [hstamp2, hstamp]; exact ht)]
      rw [← hpd, ← hr, ← hc, ← hchan, ← hchan2]
      exact doneAt_after_set i now (resolve_nick false now p1 st).2
        (resolve_nick false now p1 st).1 (by rw [hpd]; exact hi)
    · rw [if_neg hres]
      rw [if_pos (by rw [hstamp]; exact ht)]
      have h4 := doneAt_after_set i now st p1 hi
      rw [hchan] at h4
      exact h4

/-- C3 witness: the amended claim at the concrete timed-out opped
intent. -/
theorem c3_witness_timeout :
    (sweepStep none 100 0 cStTimeout).pending.length + 1 = cStTimeout.pending.length ∧
    (sweepStep none 100 0 cStTimeout).reports = cStTimeout.reports ∧
    ((sweepStep none 100 0 cStTimeout).cmds = cStTimeout.cmds ∨
      (sweepStep none 100 0 cStTimeout).cmds = cStTimeout.cmds ++ [deopCmd "#c"]) :=
  c3_amended_silent_timeout none 100 0 cStTimeout cTimeoutAct (by decide) (by decide)

theorem getAppendLen {α : Type} : ∀ (d r : List α), (d ++ r)[d.length]? = r[0]? := by
  intro d r
  induction d with
  | nil => rfl
  | cons a d ih => simpa using ih

theorem eraseIdxAppendLen {α : Type} : ∀ (d : List α) (p : α) (r : List α),
    (d ++ p :: r).eraseIdx d.length = d ++ r := by
  intro d p r
  induction d with
  | nil => rfl
  | cons a d ih => simpa [List.eraseIdx_cons_succ] using ih

theorem endwasLoop_overrun (nick : String) (fuel k : Nat) (l : List Action) (out : List String)
    (h : l.length ≤ k) : endwasLoop nick fuel k l out = (l, out) := by
  cases fuel with
  | zero => rfl
  | succ f =>
    unfold endwasLoop
    rw [List.getElem?_eq_none h]

theorem endwasLoop_split (nick : String) :
    ∀ (fuel : Nat) (rem done : List Action) (out : List String), rem.length ≤ fuel →
      endwasLoop nick fuel done.length (done ++ rem) out =
        (done ++ (endwasSpec nick rem).1, out ++ (endwasSpec nick rem).2) := by
  intro fuel
  induction fuel with
  | zero =>
    intro rem done out h
    have hnil : rem = [] := List.length_eq_zero.mp (Nat.le_zero.mp h)
    subst hnil
    simp [endwasLoop, endwasSpec]
  | succ f ih =>
    intro rem done out h
    cases rem with
    | nil =>
      rw [endwasLoop_overrun nick _ _ _ _ (by simp)]
      simp [endwasSpec]
    | cons p rest =>
      unfold endwasLoop
      rw [show (done ++ p :: rest)[done.length]? = some p from by rw [getAppendLen]; simp]
      dsimp only
      by_cases hp : (p.target == some nick) = true
      · rw [if_pos hp, eraseIdxAppendLen]
        cases rest with
        | nil =>
          rw [endwasLoop_overrun nick f (done.length + 1) (done ++ [])
            (out ++ [optS p.target ++ " could not be found"]) (by simp)]
          have hspec : endwasSpec nick [p] = ([], [optS p.target ++ " could not be found"]) := by
            simp only [endwasSpec, hp, if_true]
          rw [hspec]
        | cons q rest2 =>
          have hlen : rest2.length ≤ f := by simp [List.length] at h; omega
          have hrec := ih rest2 (done ++ [q]) (out ++ [optS p.target ++ " could not be found"]) hlen
          rw [show done ++ q :: rest2 = (done ++ [q]) ++ rest2 from by simp]
          rw [show done.length + 1 = (done ++ [q]).length from by simp]
          rw [hrec]
          have hspec : endwasSpec nick (p :: q :: rest2) =
              (q :: (endwasSpec nick rest2).1,
               (optS p.target ++ " could not be found") :: (endwasSpec nick rest2).2) := by
            simp only [endwasSpec, hp, if_true]
          rw [hspec]
          simp
      · rw [if_neg hp]
        have hlen : rest.length ≤ f := by simp [List.length] at h; omega
        have hrec := ih rest (done ++ [p]) out hlen
        rw [show done ++ p :: rest = (done ++ [p]) ++ rest from by simp]
        rw [show done.length + 1 = (done ++ [p]).length from by simp]
        rw [hrec]
        have hpf : (p.target == some nick) = false := Bool.eq_false_iff.mpr hp
        have hspec : endwasSpec nick (p :: rest) =
            (p :: (endwasSpec nick rest).1, (endwasSpec nick rest).2) := by
          cases rest with
          | nil => simp [endwasSpec, hpf]
          | cons q rest2 => simp [endwasSpec, hpf]
        rw [hspec]
        simp

theorem noAdj_tail (nick : String) (p : Action) (l : List Action)
    (h : noAdjMatch nick (p :: l) = true) : noAdjMatch nick l = true := by
  cases l with
  | nil => rfl
  | cons q rest =>
    unfold noAdjMatch at h
    rw [Bool.and_eq_true] at h
    exact h.2

theorem endwasSpec_noAdj (nick : String) :
    ∀ (n : Nat) (l : List Action), l.length ≤ n → noAdjMatch nick l = true →
      endwasSpec nick l =
        (l.filter (fun p => !(p.target == some nick)),
         (l.filter (fun p => p.target == some nick)).map
           (fun p => optS p.target ++ " could not be found")) := by
  intro n
  induction n with
  | zero =>
    intro l h _
    have hnil : l = [] := List.length_eq_zero.mp (Nat.le_zero.mp h)
    subst hnil
    rfl
  | succ m ih =>
    intro l hlen hadj
    cases l with
    | nil => rfl
    | cons p rest =>
      by_cases hp : (p.target == some nick) = true
      · cases rest with
        | nil =>
          have hspec : endwasSpec nick [p] = ([], [optS p.target ++ " could not be found"]) := by
            simp only [endwasSpec, hp, if_true]
          rw [hspec]
          simp [List.filter_cons, hp]
        | cons q rest2 =>
          have hq : (q.target == some nick) = false := by
            unfold noAdjMatch at hadj
            rw [Bool.and_eq_true] at hadj
            have h1 := hadj.1
            rw [Bool.not_eq_true', hp, Bool.true_and] at h1
            exact h1
          have hadj2 : noAdjMatch nick rest2 = true := by
            apply noAdj_tail nick q rest2
            unfold noAdjMatch at hadj
            rw [Bool.and_eq_true] at hadj
            exact hadj.2
          have hlen2 : rest2.length ≤ m := by simp [List.length] at hlen; omega
          have hrec := ih rest2 hlen2 hadj2
          have hspec : endwasSpec nick (p :: q :: rest2) =
              (q :: (endwasSpec nick rest2).1,
               (optS p.target ++ " could not be found") :: (endwasSpec nick rest2).2) := by
            simp only [endwasSpec, hp, if_true]
          rw [hspec, hrec]
          simp [List.filter_cons, hp, hq]
      · have hpf := Bool.eq_false_iff.mpr hp
        have hadj2 : noAdjMatch nick rest = true := noAdj_tail nick p rest hadj
        have hlen2 : rest.length ≤ m := by simp [List.length] at hlen; omega
        have hrec := ih rest hlen2 hadj2
        have hspec : endwasSpec nick (p :: rest) =
            (p :: (endwasSpec nick rest).1, (endwasSpec nick rest).2) := by
          cases rest with
          | nil => simp [endwasSpec, hpf]
          | cons q rest2 => simp [endwasSpec, hpf]
        rw [hspec, hrec]
        simp [List.filter_cons, hpf]

/-- C8 amended: when the lookup-exhausted event arrives, each matching
intent the scan examines is reported and removed, and provided no two
intents targeting the nickname are adjacent in the queue this covers
every matching intent; an intent targeting the nickname that directly
follows a removed one is skipped by the scan and stays queued. -/
theorem c8_amended_endwas (nick : String) (st : St)
    (h : noAdjMatch nick st.pending = true) :
    (do_endwas nick st).pending = st.pending.filter (fun p => !(p.target == some nick)) ∧
    (do_endwas nick st).reports = st.reports ++
      (st.pending.filter (fun p => p.target == some nick)).map
        (fun p => optS p.target ++ " could not be found") ∧
    (do_endwas nick st).cmds = st.cmds := by
  unfold do_endwas
  have hsplit := endwasLoop_split nick st.pending.length st.pending [] [] (le_refl _)
  simp only [List.nil_append, List.length_nil] at hsplit
  have hspec := endwasSpec_noAdj nick st.pending.length st.pending (le_refl _) h
  rw [hspec] at hsplit
  dsimp only
  rw [hsplit]
  exact ⟨rfl, rfl, rfl⟩

/-- C8 counterexample: two adjacent queued intents targeting bob — the
scan removes and reports the first, skips the second, and the second
remains queued after the lookup-exhausted event. -/
theorem c8_counterexample_adjacent_survives :
    (do_endwas "bob" cStWasAdj).pending = [cWasB] ∧
    cWasB.target = some "bob" ∧
    (do_endwas "bob" cStWasAdj).reports = ["bob could not be found"] := by decide

/-- C8 witness: with the two bob intents separated, both are removed. -/
theorem c8_witness_separated :
    noAdjMatch "bob" cStWasSep.pending = true ∧
    (do_endwas "bob" cStWasSep).pending = [cWasC] := by
  refine ⟨by decide, ?_⟩
  have h := (c8_amended_endwas "bob" cStWasSep (by decide)).1
  exact h.trans (by decide)

theorem resolve_nick_collect (req : Bool) (now : Int) (a : Action) (st : St) :
    (resolve_nick req now a st).2.collecting_bans = st.collecting_bans := by
  unfold resolve_nick
  dsimp only
  repeat' split
  all_goals rfl

theorem doneAt_collect (i : Nat) (now : Int) (st : St) :
    (doneAt i now st).collecting_bans = st.collecting_bans := by
  unfold doneAt
  dsimp only
  repeat' split
  all_goals rfl

theorem matchLoop_collect (entries : List String) (mode tag : String) :
    ∀ start : Action × St,
      (matchLoop start entries mode tag).2.collecting_bans = start.2.collecting_bans := by
  induction entries with
  | nil => intro start; rfl
  | cons b rest ih =>
    intro start
    rw [show matchLoop start (b :: rest) mode tag
        = matchLoop (if matchBan start.1 b then
            (if start.1.do_bans then (start.1, report start.2 (b ++ tag))
             else ({ start.1 with actions := start.1.actions
               ++ ["mode " ++ start.1.channel ++ " " ++ mode ++ " " ++ b] }, start.2))
          else start) rest mode tag from rfl]
    rw [ih]
    split
    · split <;> rfl
    · rfl

theorem foldIssue_collect (a : Action) (l : List String) :
    ∀ st : St,
      (l.foldl (fun s t => issue s (pySubst a t)) st).collecting_bans = st.collecting_bans := by
  induction l with
  | nil => intro st; rfl
  | cons t rest ih =>
    intro st
    rw [List.foldl_cons, ih]
    rfl

theorem runAt_collect (i : Nat) (now : Int) (st : St) :
    (runAt i now st).collecting_bans = st.collecting_bans := by
  unfold runAt
  split
  · rfl
  · dsimp only
    rw [doneAt_collect, foldIssue_collect]
    split
    · rw [matchLoop_collect, matchLoop_collect]
      split <;> rfl
    · split <;> rfl

theorem sweepStep_collect (jo : Option String) (now : Int) (i : Nat) (st : St) :
    (sweepStep jo now i st).collecting_bans = st.collecting_bans := by
  unfold sweepStep
  split
  · rfl
  · rename_i p0 heq
    dsimp only
    set p1 := (if some p0.channel == jo then { p0 with am_op := true } else p0) with hp1
    rcases hnick : p1.target_nick with _ | nk
    · simp only [hnick]
      split
      · rw [doneAt_collect]
      · split
        · rw [runAt_collect]
        · rfl
    · simp only [hnick]
      by_cases hres : ((alGet st.users nk).isSome && !p1.resolved) = true
      · rw [if_pos hres]
        split
        · rw [doneAt_collect]
          exact resolve_nick_collect false now p1 st
        · split
          · rw [runAt_collect]
            exact resolve_nick_collect false now p1 st
          · exact resolve_nick_collect false now p1 st
      · rw [if_neg hres]
        split
        · rw [doneAt_collect]
        · split
          · rw [runAt_collect]
          · rfl

theorem runLoop_collect (jo : Option String) (now : Int) :
    ∀ (fuel i : Nat) (st : St),
      (runLoop jo now fuel i st).collecting_bans = st.collecting_bans := by
  intro fuel
  induction fuel with
  | zero => intro i st; rfl
  | succ f ih =>
    intro i st
    unfold runLoop
    split
    · rw [ih, sweepStep_collect]
    · rfl

theorem run_pending_collect (jo : Option String) (now : Int) (st : St) :
    (run_pending jo now st).collecting_bans = st.collecting_bans := by
  unfold run_pending
  exact runLoop_collect jo now _ _ st

/-- C10: starting ban-list collection for a channel already collecting
records the channel twice, and after a single end-of-quiets event the
channel is still recorded as collecting, so every unban or show-bans
intent for that channel remains not ready. -/
theorem c10_double_collection :
    (∀ (ch : String) (st : St),
        (fetch_bans ch st).collecting_bans = st.collecting_bans ++ [ch]) ∧
    (∀ (ch : String) (now : Int) (st : St), 2 ≤ st.collecting_bans.count ch →
        (do_endquiet ch now st).collecting_bans.contains ch = true ∧
        ∀ p : Action, (p.do_unban || p.do_bans) = true → p.channel = ch →
          canRunNow (do_endquiet ch now st) p = false) := by
  constructor
  · intro ch st; rfl
  · intro ch now st h2
    have hmem : ch ∈ st.collecting_bans := by
      by_contra hx
      rw [List.count_eq_zero.mpr hx] at h2
      omega
    have hcont : st.collecting_bans.contains ch = true := List.elem_iff.mpr hmem
    have hafter : ch ∈ st.collecting_bans.erase ch := by
      have hcnt := List.count_erase_self ch st.collecting_bans
      have hpos : 0 < List.count ch (st.collecting_bans.erase ch) := by omega
      exact List.count_pos_iff.mp hpos
    unfold do_endquiet
    rw [if_pos hcont]
    constructor
    · rw [run_pending_collect]
      exact List.elem_iff.mpr hafter
    · intro p hp hch
      unfold canRunNow
      rw [run_pending_collect]
      dsimp only
      rw [hch, hp]
      have hc2 : ((st.collecting_bans.erase ch).contains ch) = true := List.elem_iff.mpr hafter
      rw [hc2]
      rfl

/-- C10 witness: a doubly collecting channel survives one end-of-quiets
event and keeps the unban intent not ready. -/
theorem c10_witness_collect :
    (fetch_bans "#c" ({} : St)).collecting_bans = ["#c"] ∧
    (do_endquiet "#c" 0 cStCollect).collecting_bans.contains "#c" = true ∧
    canRunNow (do_endquiet "#c" 0 cStCollect) cUnbanAct = false := by
  have h1 := c10_double_collection.1 "#c" ({} : St)
  have h2 := c10_double_collection.2 "#c" 0 cStCollect (by decide)
  exact ⟨h1.trans rfl, h2.1, h2.2 cUnbanAct (by decide) rfl⟩

end Chanserv
